import Mathlib

/-!
# Verification of the 1D Perlin noise generator (`perlin.py`)

Shallow embedding of the `Perlin` class from `perlin.py`.  Python's
unbounded integers are modelled by `Int` (Python's `>>` is an arithmetic
shift, which is exactly `Int.shiftRight`; `x << 17` on unbounded integers
is exactly `x * 2 ^ 17`; `&` and `^` are two's-complement bitwise
operations, which is exactly `Int.land` / `Int.xor`).  Python floats are
modelled by exact rational arithmetic over `ℚ`.  The one fallible
operation, the division `y / maxY` in `noise` (Python raises
`ZeroDivisionError` when `maxY == 0`), is modelled with `Option`.
-/

set_option maxRecDepth 16000

namespace Perlintoy

/-- `Perlin._unsalted_xs32` from `perlin.py`:
```
x ^= x >> 13
x ^= x << 17
x ^= x >> 5
return x
```
over Python's unbounded integers. -/
def unsalted_xs32 (x : Int) : Int :=
  let x1 := Int.xor x (Int.shiftRight x 13)
  let x2 := Int.xor x1 (x1 * 2 ^ 17)
  Int.xor x2 (Int.shiftRight x2 5)

/-- The configuration stored by `Perlin.__init__`: salt, octave count and
persistence.  `octaves` is a Python integer (`range(0, octaves)` is empty
when it is not positive). -/
structure Perlin where
  salt : Int
  octaves : Int
  persistence : ℚ

/-- `Perlin.__init__(self, octaves=1, persistence=0.5, salt=1)`.  It stores
its arguments without any validation. -/
def Perlin.init (octaves : Int := 1) (persistence : ℚ := 1/2) (salt : Int := 1) :
    Perlin :=
  { salt := salt, octaves := octaves, persistence := persistence }

/-- The behaviour of the `self._xs32` method after construction: `__init__`
replaces it by `_unsalted_xs32` when `salt == 1`, otherwise it is
`_xs32(x) = _unsalted_xs32(x * salt)`. -/
def Perlin.xs32 (g : Perlin) (x : Int) : Int :=
  if g.salt = 1 then unsalted_xs32 x else unsalted_xs32 (x * g.salt)

/-- The hard-coded permutation table `self._perm` (identical for every
instance): 256 values followed by a duplicate of the first, 257 entries. -/
def perm : List Int := [151,160,137,91,90,15,
  131,13,201,95,96,53,194,233,7,225,140,36,103,30,69,142,8,99,37,240,21,10,23,
  190, 6,148,247,120,234,75,0,26,197,62,94,252,219,203,117,35,11,32,57,177,33,
  88,237,149,56,87,174,20,125,136,171,168, 68,175,74,165,71,134,139,48,27,166,
  77,146,158,231,83,111,229,122,60,211,133,230,220,105,92,41,55,46,245,40,244,
  102,143,54, 65,25,63,161, 1,216,80,73,209,76,132,187,208, 89,18,169,200,196,
  135,130,116,188,159,86,164,100,109,198,173,186, 3,64,52,217,226,250,124,123,
  5,202,38,147,118,126,255,82,85,212,207,206,59,227,47,16,58,17,182,189,28,42,
  223,183,170,213,119,248,152, 2,44,154,163, 70,221,153,101,155,167, 43,172,9,
  129,22,39,253, 19,98,108,110,79,113,224,232,178,185, 112,104,218,246,97,228,
  251,34,242,193,238,210,144,12,191,179,162,241, 81,51,145,235,249,14,239,107,
  49,192,214, 31,181,199,106,157,184, 84,204,176,115,121,50,45,127, 4,150,254,
  138,236,205,93,222,114,67,29,24,72,243,141,128,195,78,66,215,61,156,180,
  151]

/-- The table lookup `self._perm[k & 255]` used by `_octave`.  The default
value of `getD` is irrelevant: the index is always in bounds (see the
permutation-domain-safety theorem). -/
def permAt (k : Int) : Int :=
  perm.getD (Int.land k 255).toNat 0

/-- `Perlin._lerp(self, a, b, t)`: `a + t*(b-a)`. -/
def lerp (a b t : ℚ) : ℚ := a + t * (b - a)

/-- `Perlin._fade(self, t)`: `t * t * t * (t * (t * 6 - 15) + 10)`. -/
def fade (t : ℚ) : ℚ := t * t * t * (t * (t * 6 - 15) + 10)

/-- `Perlin._grad(self, xi, x)`, parameterised by the hash function `h`
standing for the `self._xs32` method (Python's `if v & 1:` is truthy
exactly when `v & 1 ≠ 0`). -/
def gradH (h : Int → Int) (xi : Int) (x : ℚ) : ℚ :=
  if Int.land (h xi) 1 ≠ 0 then x else -x

/-- `Perlin._octave(self, x)`, parameterised by the hash function. -/
def octaveH (h : Int → Int) (x : ℚ) : ℚ :=
  let x0 : Int := ⌊x⌋
  let x1 : Int := x0 + 1
  let a := gradH h (permAt x0) (x - (x0 : ℚ))
  let b := gradH h (permAt x1) (x - (x1 : ℚ))
  lerp a b (fade (x - (x0 : ℚ)))

/-- The loop state of `Perlin.noise`: `y`, `maxY`, `amp`, `freq`. -/
structure NoiseState where
  y : ℚ
  maxY : ℚ
  amp : ℚ
  freq : ℚ

/-- One iteration of the loop body of `Perlin.noise`:
`y += amp*self._octave(x*freq); maxY += amp; freq *= 2; amp *= persistence`. -/
def noiseStep (h : Int → Int) (p x : ℚ) (s : NoiseState) : NoiseState :=
  { y := s.y + s.amp * octaveH h (x * s.freq)
    maxY := s.maxY + s.amp
    amp := s.amp * p
    freq := s.freq * 2 }

/-- The state after `n` iterations of the loop of `Perlin.noise`, starting
from `y = 0, maxY = 0, amp = 1, freq = 1`. -/
def noiseIter (h : Int → Int) (p x : ℚ) : Nat → NoiseState
  | 0 => ⟨0, 0, 1, 1⟩
  | n + 1 => noiseStep h p x (noiseIter h p x n)

/-- `Perlin.noise(self, x)` with the hash function abstracted:
`range(0, octaves)` performs `octaves.toNat` iterations, and the final
`return y/maxY` raises `ZeroDivisionError` when `maxY` is zero, modelled
as `none`. -/
def noiseH (h : Int → Int) (p : ℚ) (octaves : Int) (x : ℚ) : Option ℚ :=
  let s := noiseIter h p x octaves.toNat
  if s.maxY = 0 then none else some (s.y / s.maxY)

/-- `Perlin.noise(self, x)`. -/
def Perlin.noise (g : Perlin) (x : ℚ) : Option ℚ :=
  noiseH g.xs32 g.persistence g.octaves x

/-! ### Definitions taken from the spec's own words, for the refinement
claims comparing the code with the spec text. -/

/-- Spec formula for the fade curve: `t³·(t·(t·6 − 15) + 10)`. -/
def specFade (t : ℚ) : ℚ := t ^ 3 * (t * (t * 6 - 15) + 10)

/-- Spec formula for linear interpolation: `a + t·(b − a)`. -/
def specInterpolate (a b t : ℚ) : ℚ := a + t * (b - a)

/-- Spec formula for the hash: the three xorshift steps
`v ^= v >> 13; v ^= v << 17; v ^= v >> 5` over unbounded-width integers. -/
def specHash (v : Int) : Int :=
  let v1 := Int.xor v (Int.shiftRight v 13)
  let v2 := Int.xor v1 (v1 * 2 ^ 17)
  Int.xor v2 (Int.shiftRight v2 5)

/-- Spec's salted hash variant: multiply the input by `salt`, then apply
the same three-step xorshift. -/
def specSaltedHash (salt v : Int) : Int := specHash (v * salt)

/-- Loop state of the spec's octave-summation pseudocode. -/
structure SpecState where
  total : ℚ
  maxAmplitude : ℚ
  amplitude : ℚ
  frequency : ℚ

/-- The body of the spec's octave-summation loop:
`total += amplitude * singleOctave(x * frequency); maxAmplitude += amplitude;
frequency *= 2; amplitude *= persistence`. -/
def specStep (h : Int → Int) (persistence x : ℚ) (st : SpecState) : SpecState :=
  { total := st.total + st.amplitude * octaveH h (x * st.frequency)
    maxAmplitude := st.maxAmplitude + st.amplitude
    amplitude := st.amplitude * persistence
    frequency := st.frequency * 2 }

/-- The spec's octave-summation loop, written as it appears in the spec:
starting from `total = 0, maxAmplitude = 0, amplitude = 1, frequency = 1`,
perform exactly `octaveCount` iterations of the loop body, then return
`total / maxAmplitude` (division by zero modelled as `none`, as in the
code's embedding). -/
def specNoise (h : Int → Int) (persistence : ℚ) (octaveCount : Nat) (x : ℚ) :
    Option ℚ :=
  let final := (List.range octaveCount).foldl
    (fun st _ => specStep h persistence x st) (⟨0, 0, 1, 1⟩ : SpecState)
  if final.maxAmplitude = 0 then none else some (final.total / final.maxAmplitude)

/-! ### Bitwise helper lemmas -/

theorem land_ofNat_255 (m : Nat) :
    Int.land (Int.ofNat m) 255 = Int.ofNat (m &&& 255) := rfl

theorem land_negSucc_255 (m : Nat) :
    Int.land (Int.negSucc m) 255 = Int.ofNat (Nat.ldiff 255 m) := rfl

theorem ldiff_255_lt (m : Nat) : Nat.ldiff 255 m < 256 := by
  by_contra h
  push_neg at h
  obtain ⟨i, hi, hbit⟩ := Nat.ge_two_pow_implies_high_bit_true (n := 8)
    (by exact_mod_cast h)
  rw [Nat.testBit_ldiff] at hbit
  have h255 : Nat.testBit 255 i = false :=
    Nat.testBit_lt_two_pow
      (Nat.lt_of_lt_of_le (by norm_num) (Nat.pow_le_pow_right (by norm_num) hi))
  simp [h255] at hbit

theorem land_255_nonneg (k : Int) : 0 ≤ Int.land k 255 := by
  cases k with
  | ofNat m => rw [land_ofNat_255]; exact Int.ofNat_nonneg _
  | negSucc m => rw [land_negSucc_255]; exact Int.ofNat_nonneg _

theorem land_255_lt (k : Int) : Int.land k 255 < 256 := by
  cases k with
  | ofNat m =>
      rw [land_ofNat_255]
      have h : m &&& 255 < 256 := by
        have := Nat.and_lt_two_pow m (y := 255) (n := 8) (by norm_num)
        norm_num at this
        exact this
      exact Int.ofNat_lt.mpr h
  | negSucc m =>
      rw [land_negSucc_255]
      exact Int.ofNat_lt.mpr (ldiff_255_lt m)

theorem ldiff_1_lt (m : Nat) : Nat.ldiff 1 m < 2 := by
  by_contra h
  push_neg at h
  obtain ⟨i, hi, hbit⟩ := Nat.ge_two_pow_implies_high_bit_true (n := 1)
    (by exact_mod_cast h)
  rw [Nat.testBit_ldiff] at hbit
  have h1 : Nat.testBit 1 i = false :=
    Nat.testBit_lt_two_pow
      (Nat.lt_of_lt_of_le (by norm_num) (Nat.pow_le_pow_right (by norm_num) hi))
  simp [h1] at hbit

/-- The low bit test `v & 1` yields either `0` or `1` for every integer. -/
theorem land_1_eq_zero_or_one (v : Int) :
    Int.land v 1 = 0 ∨ Int.land v 1 = 1 := by
  cases v with
  | ofNat m =>
      have : Int.land (Int.ofNat m) 1 = Int.ofNat (m &&& 1) := rfl
      rw [this, Nat.and_one_is_mod]
      rcases Nat.mod_two_eq_zero_or_one m with h | h <;> rw [h]
      · exact Or.inl rfl
      · exact Or.inr rfl
  | negSucc m =>
      have : Int.land (Int.negSucc m) 1 = Int.ofNat (Nat.ldiff 1 m) := rfl
      rw [this]
      have h2 := ldiff_1_lt m
      interval_cases h : Nat.ldiff 1 m
      · exact Or.inl rfl
      · exact Or.inr rfl

/-! ### The fade curve and the single-octave bound -/

theorem fade_nonneg {t : ℚ} (h0 : 0 ≤ t) : 0 ≤ fade t := by
  have hcube : 0 ≤ t * t * t := by positivity
  have hg : 0 ≤ t * (t * 6 - 15) + 10 := by nlinarith [sq_nonneg (t * 2 - 5/2)]
  calc (0 : ℚ) ≤ (t * t * t) * (t * (t * 6 - 15) + 10) := mul_nonneg hcube hg
    _ = fade t := by rw [fade]

theorem fade_le_one {t : ℚ} (h0 : 0 ≤ t) (h1 : t ≤ 1) : fade t ≤ 1 := by
  have key : 1 - fade t = (1 - t) ^ 3 * (6 * t ^ 2 + 3 * t + 1) := by
    rw [fade]; ring
  nlinarith [pow_nonneg (by linarith : (0:ℚ) ≤ 1 - t) 3,
    sq_nonneg t, mul_nonneg (pow_nonneg (by linarith : (0:ℚ) ≤ 1 - t) 3)
      (by nlinarith [sq_nonneg t] : (0:ℚ) ≤ 6 * t ^ 2 + 3 * t + 1)]

/-- The amplitude-weighted blend of the two lattice distances stays below
one half: `(1 - fade t) * t + fade t * (1 - t) ≤ 1/2` on `[0, 1]`. -/
theorem blend_le_half {t : ℚ} (h0 : 0 ≤ t) (h1 : t ≤ 1) :
    (1 - fade t) * t + fade t * (1 - t) ≤ 1/2 := by
  have key : 1/2 - ((1 - fade t) * t + fade t * (1 - t)) =
      2 * (t - 1/2) ^ 2 * (6 * (t * (t - 1)) ^ 2 + 2 * t * (1 - t) + 1) := by
    rw [fade]; ring
  have hinner : (0:ℚ) ≤ 6 * (t * (t - 1)) ^ 2 + 2 * t * (1 - t) + 1 := by
    nlinarith [sq_nonneg (t * (t - 1)), mul_nonneg h0 (by linarith : (0:ℚ) ≤ 1 - t)]
  have hrhs : (0:ℚ) ≤ 2 * (t - 1/2) ^ 2 * (6 * (t * (t - 1)) ^ 2 + 2 * t * (1 - t) + 1) :=
    mul_nonneg (by positivity) hinner
  linarith [key, hrhs]

/-- A single octave always lies in `[-1/2, 1/2]`, whatever the hash. -/
theorem octaveH_bounds (h : Int → Int) (x : ℚ) :
    -(1/2) ≤ octaveH h x ∧ octaveH h x ≤ 1/2 := by
  have ht0 : (0:ℚ) ≤ x - (⌊x⌋ : ℚ) := by
    have := Int.floor_le x
    linarith
  have ht1 : x - (⌊x⌋ : ℚ) ≤ 1 := by
    have := Int.lt_floor_add_one x
    linarith
  set t : ℚ := x - (⌊x⌋ : ℚ) with hts
  have hf0 : 0 ≤ fade t := fade_nonneg ht0
  have hf1 : fade t ≤ 1 := fade_le_one ht0 ht1
  have hblend : (1 - fade t) * t + fade t * (1 - t) ≤ 1/2 := blend_le_half ht0 ht1
  have hx1 : x - ((⌊x⌋ + 1 : Int) : ℚ) = t - 1 := by push_cast; ring
  rw [octaveH]
  simp only [gradH, lerp, hx1]
  rw [← hts]
  have hft : (0:ℚ) ≤ fade t * t := mul_nonneg hf0 ht0
  have hft1 : (0:ℚ) ≤ fade t * (1 - t) := mul_nonneg hf0 (by linarith)
  have h1ft : (0:ℚ) ≤ (1 - fade t) * t := mul_nonneg (by linarith) ht0
  have h1ft1 : (0:ℚ) ≤ (1 - fade t) * (1 - t) :=
    mul_nonneg (by linarith) (by linarith)
  split_ifs <;> constructor <;> nlinarith [hblend, hft, hft1, h1ft, h1ft1]

/-! ### The octave-summation loop invariant -/

theorem noiseIter_invariant (h : Int → Int) {p : ℚ} (hp : 0 < p) (x : ℚ) :
    ∀ n : Nat, 0 < (noiseIter h p x n).amp ∧ 0 ≤ (noiseIter h p x n).maxY ∧
      |(noiseIter h p x n).y| ≤ (noiseIter h p x n).maxY / 2 ∧
      (1 ≤ n → 1 ≤ (noiseIter h p x n).maxY) := by
  intro n
  induction n with
  | zero =>
      refine ⟨one_pos, le_refl 0, ?_, ?_⟩
      · simp [noiseIter]
      · intro hcon; omega
  | succ n ih =>
      obtain ⟨hamp, hmaxY, hy, hone⟩ := ih
      set s := noiseIter h p x n with hs
      have hoct := octaveH_bounds h (x * s.freq)
      have hoct_abs : |octaveH h (x * s.freq)| ≤ 1/2 :=
        abs_le.mpr ⟨by linarith [hoct.1], hoct.2⟩
      have hstep : noiseIter h p x (n + 1) = noiseStep h p x s := rfl
      refine ⟨?_, ?_, ?_, ?_⟩
      · rw [hstep]
        exact mul_pos hamp hp
      · rw [hstep]
        show 0 ≤ s.maxY + s.amp
        linarith
      · rw [hstep]
        show |s.y + s.amp * octaveH h (x * s.freq)| ≤ (s.maxY + s.amp) / 2
        calc |s.y + s.amp * octaveH h (x * s.freq)|
            ≤ |s.y| + |s.amp * octaveH h (x * s.freq)| := abs_add _ _
          _ = |s.y| + s.amp * |octaveH h (x * s.freq)| := by
              rw [abs_mul, abs_of_pos hamp]
          _ ≤ s.maxY / 2 + s.amp * (1/2) := by
              have := mul_le_mul_of_nonneg_left hoct_abs (le_of_lt hamp)
              linarith
          _ = (s.maxY + s.amp) / 2 := by ring
      · intro _
        rw [hstep]
        show 1 ≤ s.maxY + s.amp
        rcases Nat.eq_zero_or_pos n with hn | hn
        · subst hn
          simp only [hs, noiseIter]
          norm_num
        · have := hone hn
          linarith

/-- **C1.** For every generator with `octaveCount ≥ 1` and persistence in
`(0, 1]`, and every input `x`, `noise(x)` returns a value `v` with
`-0.5 ≤ v ≤ 0.5`. -/
theorem noise_range (g : Perlin) (x : ℚ) (hoct : 1 ≤ g.octaves)
    (hp0 : 0 < g.persistence) (hp1 : g.persistence ≤ 1) :
    ∃ v : ℚ, g.noise x = some v ∧ -(1/2) ≤ v ∧ v ≤ 1/2 := by
  obtain ⟨hamp, hmaxY, hy, hone⟩ :=
    noiseIter_invariant g.xs32 hp0 x g.octaves.toNat
  have hn1 : 1 ≤ g.octaves.toNat := by omega
  have hmax1 : 1 ≤ (noiseIter g.xs32 g.persistence x g.octaves.toNat).maxY :=
    hone hn1
  set s := noiseIter g.xs32 g.persistence x g.octaves.toNat with hs
  have hmaxpos : 0 < s.maxY := by linarith
  refine ⟨s.y / s.maxY, ?_, ?_, ?_⟩
  · rw [Perlin.noise, noiseH]
    simp only [← hs]
    rw [if_neg (by linarith)]
  · have habs : |s.y / s.maxY| ≤ 1/2 := by
      rw [abs_div, abs_of_pos hmaxpos, div_le_iff₀ hmaxpos]
      calc |s.y| ≤ s.maxY / 2 := hy
        _ = 1/2 * s.maxY := by ring
    linarith [(abs_le.mp habs).1]
  · have habs : |s.y / s.maxY| ≤ 1/2 := by
      rw [abs_div, abs_of_pos hmaxpos, div_le_iff₀ hmaxpos]
      calc |s.y| ≤ s.maxY / 2 := hy
        _ = 1/2 * s.maxY := by ring
    linarith [(abs_le.mp habs).2]

/-- Witness for C1 at the default generator and `x = 0`. -/
theorem noise_range_witness :
    ∃ v : ℚ, (Perlin.init 1 (1/2) 1).noise 0 = some v ∧ -(1/2) ≤ v ∧ v ≤ 1/2 :=
  noise_range (Perlin.init 1 (1/2) 1) 0 (by norm_num [Perlin.init])
    (by norm_num [Perlin.init]) (by norm_num [Perlin.init])

/-! ### Refinement: the code's loop against the spec's loop -/

theorem specFold_eq (h : Int → Int) (p x : ℚ) (n : Nat) :
    (List.range n).foldl (fun st _ => specStep h p x st) (⟨0, 0, 1, 1⟩ : SpecState) =
      SpecState.mk (noiseIter h p x n).y (noiseIter h p x n).maxY
        (noiseIter h p x n).amp (noiseIter h p x n).freq := by
  induction n with
  | zero => rfl
  | succ n ih =>
      rw [List.range_succ, List.foldl_append, ih]
      rfl

/-- **C2.** For every generator with `octaveCount ≥ 1` and every input `x`,
`noise(x)` equals the normalized octave sum computed by the spec's loop:
`octaveCount` iterations of
`total += amplitude * singleOctave(x * frequency); maxAmplitude += amplitude;
frequency *= 2; amplitude *= persistence` starting from
`total = 0, maxAmplitude = 0, amplitude = 1, frequency = 1`, returning
`total / maxAmplitude`. -/
theorem noise_eq_specNoise (g : Perlin) (x : ℚ) (hoct : 1 ≤ g.octaves) :
    g.noise x = specNoise g.xs32 g.persistence g.octaves.toNat x := by
  rw [Perlin.noise, noiseH, specNoise, specFold_eq]

/-- Witness for C2 at a concrete two-octave generator. -/
theorem noise_eq_specNoise_witness :
    (Perlin.init 2 (1/2) 1).noise (1/4) =
      specNoise (Perlin.init 2 (1/2) 1).xs32 (1/2) 2 (1/4) :=
  noise_eq_specNoise (Perlin.init 2 (1/2) 1) (1/4) (by norm_num [Perlin.init])

/-- **C3.** For every input `x`, a single octave equals
`interpolate(a, b, fade(x - x0))` with `x0 = floor(x)`, `x1 = x0 + 1`,
`a = gradient(table[x0 & 255], x - x0)`, `b = gradient(table[x1 & 255], x - x1)`,
`fade(t) = t^3·(t·(t·6 - 15) + 10)` and `interpolate(a, b, t) = a + t·(b - a)`. -/
theorem octave_formula (g : Perlin) (x : ℚ) :
    octaveH g.xs32 x =
      specInterpolate (gradH g.xs32 (permAt ⌊x⌋) (x - (⌊x⌋ : ℚ)))
        (gradH g.xs32 (permAt (⌊x⌋ + 1)) (x - ((⌊x⌋ : ℚ) + 1)))
        (specFade (x - (⌊x⌋ : ℚ))) := by
  rw [octaveH, specInterpolate, lerp]
  have hfade : fade (x - (⌊x⌋ : ℚ)) = specFade (x - (⌊x⌋ : ℚ)) := by
    rw [fade, specFade]; ring
  have hcast : x - ((⌊x⌋ + 1 : Int) : ℚ) = x - ((⌊x⌋ : ℚ) + 1) := by
    push_cast; ring
  rw [hfade, hcast]

/-- **C4.** `gradient(tableValue, d)` returns `d` exactly when the lowest
bit of the hash of `tableValue` is `1`, and `-d` otherwise; the hash is
the three-step xorshift of the spec, unsalted when `salt = 1` and applied
to `tableValue * salt` otherwise. -/
theorem grad_spec (g : Perlin) (tv : Int) (d : ℚ) :
    gradH g.xs32 tv d = (if Int.land (g.xs32 tv) 1 = 1 then d else -d) ∧
    (g.salt = 1 → ∀ v : Int, g.xs32 v = specHash v) ∧
    (g.salt ≠ 1 → ∀ v : Int, g.xs32 v = specHash (v * g.salt)) := by
  refine ⟨?_, ?_, ?_⟩
  · rw [gradH]
    rcases land_1_eq_zero_or_one (g.xs32 tv) with h | h <;> rw [h] <;> norm_num
  · intro hs v
    rw [Perlin.xs32, if_pos hs]
    rfl
  · intro hs v
    rw [Perlin.xs32, if_neg hs]
    rfl

/-- Witness for C4 at a salted generator (`salt = 3`) and table value 151. -/
theorem grad_spec_witness :
    gradH (Perlin.init 1 (1/2) 3).xs32 151 1 = 1 ∧
    (Perlin.init 1 (1/2) 3).xs32 151 = specHash (151 * (Perlin.init 1 (1/2) 3).salt) := by
  obtain ⟨h1, _, h3⟩ := grad_spec (Perlin.init 1 (1/2) 3) 151 1
  refine ⟨?_, h3 (by decide) 151⟩
  rw [h1, if_pos (by decide : Int.land ((Perlin.init 1 (1/2) 3).xs32 151) 1 = 1)]

/-! ### Integer inputs with a single octave -/

theorem gradH_zero (h : Int → Int) (xi : Int) : gradH h xi 0 = 0 := by
  rw [gradH]; split_ifs <;> simp

theorem fade_zero : fade 0 = 0 := by rw [fade]; ring

theorem octaveH_intCast (h : Int → Int) (n : Int) : octaveH h (n : ℚ) = 0 := by
  rw [octaveH]
  simp only [Int.floor_intCast, sub_self, fade_zero, gradH_zero, lerp]
  ring

/-- **C5.** A single-octave generator (any persistence, any salt) returns
exactly `0` at every integer input. -/
theorem noise_int_single_octave (p : ℚ) (salt : Int) (n : Int) :
    (Perlin.init 1 p salt).noise (n : ℚ) = some 0 := by
  show (if (0:ℚ) + 1 = 0 then none else
      some ((0 + 1 * octaveH (Perlin.init 1 p salt).xs32 ((n : ℚ) * 1)) / (0 + 1)))
    = some 0
  rw [if_neg (by norm_num : ¬((0:ℚ) + 1 = 0)), mul_one, octaveH_intCast]
  norm_num

/-- **C6.** For every integer `k` (negative ones included) the masked
index `k & 255` lies in `[0, 255]`, so both permutation-table lookups made
by a single octave are in-bounds for the 257-entry table. -/
theorem perm_index_safe (k : Int) :
    0 ≤ Int.land k 255 ∧ Int.land k 255 ≤ 255 ∧
      (Int.land k 255).toNat < perm.length := by
  have h0 := land_255_nonneg k
  have h1 := land_255_lt k
  have hlen : perm.length = 257 := rfl
  exact ⟨h0, by omega, by rw [hlen]; omega⟩

/-- **C7.** Construction accepts `octaveCount = 0` without rejection, and
such a generator's `noise` always fails with a division by zero (the loop
runs zero times and `maxY` stays `0`), modelled as `none`. -/
theorem octaves_zero_division_by_zero (p : ℚ) (salt : Int) :
    (Perlin.init 0 p salt).octaves = 0 ∧
      ∀ x : ℚ, (Perlin.init 0 p salt).noise x = none := by
  refine ⟨rfl, fun x => ?_⟩
  show (if (0 : ℚ) = 0 then none else
      some ((noiseIter (Perlin.init 0 p salt).xs32 p x 0).y / 0)) = none
  rw [if_pos rfl]

/-! ### Concrete evaluations for the determinism counterexample -/

theorem hash151_bit : Int.land (unsalted_xs32 151) 1 ≠ 0 := by decide

theorem hash160_bit : Int.land (unsalted_xs32 160) 1 ≠ 0 := by decide

/-- `octaveH` rewritten without the `let` bindings and with the lattice
point `x1` cast pushed outwards. -/
theorem octaveH_eq (h : Int → Int) (x : ℚ) :
    octaveH h x = lerp (gradH h (permAt ⌊x⌋) (x - (⌊x⌋ : ℚ)))
      (gradH h (permAt (⌊x⌋ + 1)) (x - ((⌊x⌋ : ℚ) + 1)))
      (fade (x - (⌊x⌋ : ℚ))) := by
  have hc : ((⌊x⌋ + 1 : Int) : ℚ) = (⌊x⌋ : ℚ) + 1 := by push_cast; ring
  rw [octaveH, hc]

theorem octave_quarter : octaveH unsalted_xs32 (1/4 : ℚ) = 75/512 := by
  have hfloor : ⌊(1/4 : ℚ)⌋ = 0 := by norm_num
  rw [octaveH_eq, hfloor]
  have hp0 : permAt 0 = 151 := by decide
  have hp1 : permAt (0 + 1) = 160 := by decide
  rw [hp0, hp1, gradH, gradH, if_pos hash151_bit, if_pos hash160_bit]
  norm_num [lerp, fade]

theorem octave_half : octaveH unsalted_xs32 (1/2 : ℚ) = 0 := by
  have hfloor : ⌊(1/2 : ℚ)⌋ = 0 := by norm_num
  rw [octaveH_eq, hfloor]
  have hp0 : permAt 0 = 151 := by decide
  have hp1 : permAt (0 + 1) = 160 := by decide
  rw [hp0, hp1, gradH, gradH, if_pos hash151_bit, if_pos hash160_bit]
  norm_num [lerp, fade]

theorem xs32_salt_one : ∀ oc : Int, ∀ p : ℚ,
    (Perlin.init oc p 1).xs32 = unsalted_xs32 := by
  intro oc p
  funext v
  show (if (1 : Int) = 1 then unsalted_xs32 v else unsalted_xs32 (v * 1)) =
    unsalted_xs32 v
  rw [if_pos (Eq.refl (1 : Int))]

theorem noise1_quarter : (Perlin.init 1 (1/2) 1).noise (1/4) = some (75/512) := by
  show (if (0:ℚ) + 1 = 0 then none else
      some ((0 + 1 * octaveH (Perlin.init 1 (1/2) 1).xs32 ((1/4 : ℚ) * 1)) / (0 + 1)))
    = some (75/512)
  rw [if_neg (by norm_num : ¬((0:ℚ) + 1 = 0)), xs32_salt_one, mul_one, octave_quarter]
  norm_num

theorem noise2_quarter : (Perlin.init 2 (1/2) 1).noise (1/4) = some (25/256) := by
  show (if (0:ℚ) + 1 + 1 * (1/2) = 0 then none else
      some (((0 + 1 * octaveH (Perlin.init 2 (1/2) 1).xs32 ((1/4 : ℚ) * 1))
          + 1 * (1/2) * octaveH (Perlin.init 2 (1/2) 1).xs32 ((1/4 : ℚ) * (1 * 2)))
        / (0 + 1 + 1 * (1/2)))) = some (25/256)
  rw [if_neg (by norm_num : ¬((0:ℚ) + 1 + 1 * (1/2) = 0)), xs32_salt_one]
  have h14 : (1/4 : ℚ) * 1 = 1/4 := by norm_num
  have h12 : (1/4 : ℚ) * (1 * 2) = 1/2 := by norm_num
  rw [h14, h12, octave_quarter, octave_half]
  norm_num

/-- **C8 counterexample.** Two generators with the same salt (1) and the
same persistence (1/2) but octave counts 1 and 2 disagree at `x = 1/4`:
the first returns `75/512`, the second `25/256`. -/
theorem same_salt_persistence_not_identical :
    (Perlin.init 1 (1/2) 1).noise (1/4) ≠ (Perlin.init 2 (1/2) 1).noise (1/4) := by
  rw [noise1_quarter, noise2_quarter]
  simp only [ne_eq, Option.some.injEq]
  norm_num

/-- **C8 (amended).** Two generators with the same salt, the same
persistence and the same octave count return identical values at every
input coordinate. -/
theorem noise_deterministic (g1 g2 : Perlin) (hs : g1.salt = g2.salt)
    (hp : g1.persistence = g2.persistence) (ho : g1.octaves = g2.octaves)
    (x : ℚ) : g1.noise x = g2.noise x := by
  obtain ⟨s1, o1, p1⟩ := g1
  obtain ⟨s2, o2, p2⟩ := g2
  obtain rfl : s1 = s2 := hs
  obtain rfl : o1 = o2 := ho
  obtain rfl : p1 = p2 := hp
  rfl

/-- Witness for the amended C8 at a concrete configuration. -/
theorem noise_deterministic_witness :
    (Perlin.init 3 (2/3) 5).noise (7/8) = (Perlin.init 3 (2/3) 5).noise (7/8) :=
  noise_deterministic (Perlin.init 3 (2/3) 5) (Perlin.init 3 (2/3) 5)
    rfl rfl rfl (7/8)

/-- **C9.** For `salt = 1` the salted hash path and the unsalted fast path
agree on every integer input (`hash(v * 1) = hash(v)`), so the
construction-time selection makes no observable difference to any
`noise(x)` result of a salt-1 generator. -/
theorem salt_one_fast_path (g : Perlin) (hs : g.salt = 1) :
    (∀ v : Int, specSaltedHash g.salt v = unsalted_xs32 v) ∧
    (∀ v : Int, g.xs32 v = unsalted_xs32 v) ∧
    (∀ x : ℚ, g.noise x =
      noiseH (fun v => specSaltedHash g.salt v) g.persistence g.octaves x) := by
  have hsv : ∀ v : Int, specSaltedHash g.salt v = unsalted_xs32 v := by
    intro v
    rw [specSaltedHash, hs, mul_one]
    rfl
  have hx : ∀ v : Int, g.xs32 v = unsalted_xs32 v := by
    intro v
    rw [Perlin.xs32, if_pos hs]
  have hfun : (fun v => specSaltedHash g.salt v) = g.xs32 := by
    funext v
    rw [hsv v, hx v]
  exact ⟨hsv, hx, fun x => by rw [Perlin.noise, hfun]⟩

/-- Witness for C9 at a concrete salt-1 generator. -/
theorem salt_one_fast_path_witness :
    specSaltedHash (Perlin.init 2 (1/3) 1).salt 151 = unsalted_xs32 151 ∧
    (Perlin.init 2 (1/3) 1).noise (1/4) =
      noiseH (fun v => specSaltedHash (Perlin.init 2 (1/3) 1).salt v) (1/3) 2 (1/4) := by
  obtain ⟨h1, _, h3⟩ := salt_one_fast_path (Perlin.init 2 (1/3) 1) rfl
  exact ⟨h1 151, h3 (1/4)⟩

/-- **C10.** A single-octave generator's `noise` does not depend on
persistence: for any two persistence values and the same salt the outputs
agree at every input, and each equals the single octave of `x`. -/
theorem single_octave_noise (p q : ℚ) (salt : Int) (x : ℚ) :
    (Perlin.init 1 p salt).noise x = some (octaveH (Perlin.init 1 p salt).xs32 x) ∧
    (Perlin.init 1 p salt).noise x = (Perlin.init 1 q salt).noise x := by
  have hx : ∀ r : ℚ, (Perlin.init 1 r salt).noise x =
      some (octaveH (Perlin.init 1 r salt).xs32 x) := by
    intro r
    show (if (0:ℚ) + 1 = 0 then none else
        some ((0 + 1 * octaveH (Perlin.init 1 r salt).xs32 (x * 1)) / (0 + 1)))
      = some (octaveH (Perlin.init 1 r salt).xs32 x)
    rw [if_neg (by norm_num : ¬((0:ℚ) + 1 = 0)), mul_one]
    norm_num
  have hsalt : (Perlin.init 1 p salt).xs32 = (Perlin.init 1 q salt).xs32 := rfl
  refine ⟨hx p, ?_⟩
  rw [hx p, hx q, hsalt]

end Perlintoy
